import Mathlib

/-!
Verification development for the hypertext document model and link-navigation
engine of the `cursive-markup` crate (`src/lib.rs` and `src/html.rs`).

The Rust code is shallowly embedded: structs become Lean structures, mutation
becomes explicit state passing (an operation that mutates `self` and returns
`T` becomes a function returning `State × T`), and panicking indexing
`self.links[i]` is modelled by `List.getD` (all claims about it carry the
in-range hypotheses under which the Rust code does not panic).

External collaborators (the `cursive_core` host types `XY`, `Rect`, the event
enums, the `html2text` layout engine and the `unicode_width` display-width
function) are modelled at their boundary:
- the display-width function `String::width` is an arbitrary parameter
  `w : String → Nat`;
- `XY::stack_vertical` follows its documented semantics (max of widths, sum of
  heights), which the spec restates as "height += 1, width = max(width,
  row-width)";
- `Rect` is an origin/size pair; `Rect::from(point)` is, following the spec's
  boundary description, the degenerate zero-sized rectangle at that point;
- the `html2text` render pipeline `render_tree.render(width, decorator)
  .into_lines()` is an arbitrary function `layout : Nat → List (List
  (TaggedLineElement A))` of the width (the render tree and decorator are
  fixed per renderer instance), and `theme::Style::merge` is an arbitrary
  function `merge : List Style → Style`.
-/

namespace CursiveMarkup

/-- Model of `cursive_core::XY<usize>`: a 2D vector of machine sizes. -/
structure XY where
  x : Nat
  y : Nat
  deriving DecidableEq, Repr, Inhabited

/-- Model of `cursive_core::XY::stack_vertical`: the size that fits both
arguments stacked vertically — the maximum of the widths and the sum of the
heights (the spec describes its use as "height += 1, width = max(width,
row-width)"). -/
def XY.stack_vertical (a b : XY) : XY :=
  ⟨Nat.max a.x b.x, a.y + b.y⟩

/-- Opaque token standing for `cursive_core::theme::Style`; the crate never
inspects styles, it only stores and forwards them. -/
structure Style where
  id : Nat := 0
  deriving DecidableEq, Repr, Inhabited

/-- Model of `Element` (src/lib.rs): a formatted string with an optional link
target. -/
structure Element where
  text : String
  style : Style := {}
  link_target : Option String := none
  deriving DecidableEq, Repr, Inhabited

/-- Model of `RenderedElement` (src/lib.rs). -/
structure RenderedElement where
  text : String
  style : Style
  link_idx : Option Nat
  deriving DecidableEq, Repr, Inhabited

/-- Model of `Link` (src/lib.rs): position in character cells, width in cells,
and target string. -/
structure Link where
  position : XY
  width : Nat
  target : String
  deriving DecidableEq, Repr, Inhabited

/-- Model of `LinkHandler` (src/lib.rs). `Default` gives empty links and
focus 0. -/
structure LinkHandler where
  links : List Link := []
  focus : Nat := 0
  deriving DecidableEq, Repr, Inhabited

/-- Model of `RenderedDocument` (src/lib.rs). -/
structure RenderedDocument where
  lines : List (List RenderedElement)
  link_handler : LinkHandler
  size : XY
  constraint : XY
  deriving DecidableEq, Repr, Inhabited

/-- Model of `cursive_core::direction::Absolute`. -/
inductive Absolute where
  | Left
  | Right
  | Up
  | Down
  | None
  deriving DecidableEq, Repr, Inhabited

/-- Model of `cursive_core::direction::Relative`. -/
inductive Relative where
  | Front
  | Back
  deriving DecidableEq, Repr, Inhabited

/-- Model of `cursive_core::direction::Direction`. -/
inductive Direction where
  | Abs (a : Absolute)
  | Rel (r : Relative)
  deriving DecidableEq, Repr, Inhabited

/-- Modelled from the spec: `cursive_core::Rect` is an external host type; the
spec specifies it at the boundary as a position plus a size, with
`Rect::from((0, 0))` "a degenerate zero-sized rectangle at the origin". -/
structure Rect where
  origin : XY
  size : XY
  deriving DecidableEq, Repr, Inhabited

/-- Model of `cursive_core::Rect::from((0, 0))`-style conversion from a point
(see `Rect`). -/
def Rect.fromPoint (p : XY) : Rect :=
  ⟨p, ⟨0, 0⟩⟩

/-- Model of `cursive_core::Rect::from_size(origin, size)`. -/
def Rect.from_size (origin size : XY) : Rect :=
  ⟨origin, size⟩

/-- Model of `RenderedDocument::new` (src/lib.rs lines 334-341). -/
def RenderedDocument.new (constraint : XY) : RenderedDocument :=
  { lines := []
    link_handler := {}
    size := ⟨0, 0⟩
    constraint := constraint }

/-- Model of `LinkHandler::push` (src/lib.rs lines 415-418): appends the link
and returns the new state together with `links.len() - 1`. -/
def LinkHandler.push (lh : LinkHandler) (link : Link) : LinkHandler × Nat :=
  (⟨lh.links ++ [link], lh.focus⟩, (lh.links ++ [link]).length - 1)

/-- One iteration of the `for element in line` loop body of
`RenderedDocument::push_line` (src/lib.rs lines 348-363); the state is the
running x position, the link handler and the rendered line built so far. -/
def pushLineStep (w : String → Nat) (y : Nat)
    (st : Nat × LinkHandler × List RenderedElement) (element : Element) :
    Nat × LinkHandler × List RenderedElement :=
  let (x, lh, rl) := st
  let width := w element.text
  match element.link_target with
  | some target =>
    let (lh', idx) := lh.push ⟨⟨x, y⟩, width, target⟩
    (x + width, lh', rl ++ [⟨element.text, element.style, some idx⟩])
  | none =>
    (x + width, lh, rl ++ [⟨element.text, element.style, none⟩])

/-- Model of `RenderedDocument::push_line` (src/lib.rs lines 344-366),
parametrised by the display-width function `w`. -/
def RenderedDocument.push_line (w : String → Nat) (doc : RenderedDocument)
    (line : List Element) : RenderedDocument :=
  let y := doc.lines.length
  let (x, lh, rl) := line.foldl (pushLineStep w y) (0, doc.link_handler, [])
  { lines := doc.lines ++ [rl]
    link_handler := lh
    size := doc.size.stack_vertical ⟨x, 1⟩
    constraint := doc.constraint }

/-- Model of `LinkHandler::take_focus` (src/lib.rs lines 420-438). -/
def LinkHandler.take_focus (lh : LinkHandler) (direction : Direction) :
    LinkHandler × Bool :=
  if lh.links.isEmpty then
    (lh, false)
  else
    let rel :=
      match direction with
      | .Abs a =>
        match a with
        | .Up | .Left | .None => Relative.Front
        | .Down | .Right => Relative.Back
      | .Rel r => r
    let focus :=
      match rel with
      | .Front => 0
      | .Back => lh.links.length - 1
    (⟨lh.links, focus⟩, true)

/-- Model of `LinkHandler::move_focus_horizontal` (src/lib.rs lines 452-480).
`focus.checked_sub(1)` becomes the zero test on `Nat`. -/
def LinkHandler.move_focus_horizontal (lh : LinkHandler)
    (direction : Relative) : LinkHandler × Bool :=
  if lh.links.isEmpty then
    (lh, false)
  else
    let new_focus : Option Nat :=
      match direction with
      | .Front => if lh.focus = 0 then none else some (lh.focus - 1)
      | .Back =>
        if lh.focus < lh.links.length - 1 then some (lh.focus + 1) else none
    match new_focus with
    | some nf =>
      if (lh.links.getD lh.focus default).position.y
          = (lh.links.getD nf default).position.y then
        (⟨lh.links, nf⟩, true)
      else
        (lh, false)
    | none => (lh, false)

/-- Model of `LinkHandler::move_focus_vertical` (src/lib.rs lines 482-510):
the iterator chain `links.iter().enumerate()` with `.rev().skip(len - focus)`
resp. `.skip(focus + 1)` followed by `find`. -/
def LinkHandler.move_focus_vertical (lh : LinkHandler)
    (direction : Relative) : LinkHandler × Bool :=
  if lh.links.isEmpty then
    (lh, false)
  else
    let y := (lh.links.getD lh.focus default).position.y
    let iter := lh.links.enum
    let next : Option (Nat × Link) :=
      match direction with
      | .Front =>
        (iter.reverse.drop (lh.links.length - lh.focus)).find?
          (fun p => p.2.position.y < y)
      | .Back =>
        (iter.drop (lh.focus + 1)).find? (fun p => p.2.position.y > y)
    match next with
    | some (idx, _) => (⟨lh.links, idx⟩, true)
    | none => (lh, false)

/-- Model of `LinkHandler::move_focus` (src/lib.rs lines 440-450). -/
def LinkHandler.move_focus (lh : LinkHandler) (direction : Absolute) :
    LinkHandler × Bool :=
  match direction with
  | .Left => lh.move_focus_horizontal .Front
  | .Right => lh.move_focus_horizontal .Back
  | .Up => lh.move_focus_vertical .Front
  | .Down => lh.move_focus_vertical .Back
  | .None => (lh, false)

/-- Model of `LinkHandler::important_area` (src/lib.rs lines 512-519). -/
def LinkHandler.important_area (lh : LinkHandler) : Rect :=
  if lh.links.isEmpty then
    Rect.fromPoint ⟨0, 0⟩
  else
    let link := lh.links.getD lh.focus default
    Rect.from_size link.position ⟨link.width, 1⟩

/-- Model of `MarkupView` (src/lib.rs): the two optional callbacks are
modelled by their presence (a produced callback is observed as the target
string it would be invoked with). -/
structure MarkupView where
  doc : Option RenderedDocument := none
  on_link_focus : Bool := false
  on_link_select : Bool := false
  maximum_width : Option Nat := none
  deriving DecidableEq, Repr, Inhabited

/-- The clamping step of `MarkupView::render` (src/lib.rs lines 219-221):
`constraint.x = min(width, constraint.x)` when a maximum width is set. -/
def MarkupView.clamp (view : MarkupView) (constraint : XY) : XY :=
  match view.maximum_width with
  | some width => ⟨Nat.min width constraint.x, constraint.y⟩
  | none => constraint

/-- Model of `MarkupView::render` (src/lib.rs lines 216-241); the rendering
strategy `R::render` is an explicit function argument. -/
def MarkupView.render (view : MarkupView) (renderer : XY → RenderedDocument)
    (constraint : XY) : MarkupView × XY :=
  let constraint := view.clamp constraint
  let cached : Option XY :=
    match view.doc with
    | some doc => if constraint.x = doc.constraint.x then some doc.size else none
    | none => none
  match cached with
  | some size => (view, size)
  | none =>
    let last_focus :=
      match view.doc with
      | some doc => doc.link_handler.focus
      | none => 0
    let doc := renderer constraint
    let doc :=
      if last_focus < doc.link_handler.links.length then
        { doc with link_handler := ⟨doc.link_handler.links, last_focus⟩ }
      else
        doc
    ({ view with doc := some doc }, doc.size)

/-- Model of the `cursive_core::event::Event` values distinguished by
`MarkupView::on_event`; every other event is `Other`. -/
inductive Event where
  | KeyLeft
  | KeyRight
  | KeyUp
  | KeyDown
  | KeyEnter
  | Other
  deriving DecidableEq, Repr, Inhabited

/-- Model of `cursive_core::event::EventResult`: a consumed event carries the
optional callback, observed as the link target it closes over. -/
inductive EventResult where
  | Ignored
  | Consumed (callback : Option String)
  deriving DecidableEq, Repr, Inhabited

/-- Model of `MarkupView::on_event` (src/lib.rs lines 277-318). -/
def MarkupView.on_event (view : MarkupView) (event : Event) :
    MarkupView × EventResult :=
  match view.doc with
  | none => (view, .Ignored)
  | some doc =>
    if doc.link_handler.links.isEmpty then
      (view, .Ignored)
    else
      let (lh, focus_changed) :=
        match event with
        | .KeyLeft => doc.link_handler.move_focus .Left
        | .KeyRight => doc.link_handler.move_focus .Right
        | .KeyUp => doc.link_handler.move_focus .Up
        | .KeyDown => doc.link_handler.move_focus .Down
        | _ => (doc.link_handler, false)
      let view' := { view with doc := some { doc with link_handler := lh } }
      if focus_changed then
        let target := (lh.links.getD lh.focus default).target
        (view', .Consumed (if view.on_link_focus then some target else none))
      else if event = .KeyEnter then
        let target := (lh.links.getD lh.focus default).target
        (view', .Consumed (if view.on_link_select then some target else none))
      else
        (view', .Ignored)

/-- Model of `MarkupView::important_area` (src/lib.rs lines 320-326). -/
def MarkupView.important_area (view : MarkupView) : Rect :=
  match view.doc with
  | some doc => doc.link_handler.important_area
  | none => Rect.fromPoint ⟨0, 0⟩

/-- Model of `html2text`'s `TaggedString`: a string with a list of tags of an
abstract tag type `A`. -/
structure TaggedString (A : Type) where
  s : String
  tag : List A

/-- Model of `html2text`'s `TaggedLineElement`. -/
inductive TaggedLineElement (A : Type) where
  | Str (ts : TaggedString A)
  | FragmentStart (name : String)

/-- Model of the `Converter` trait (src/html.rs lines 57-63). -/
structure Converter (A : Type) where
  get_style : A → Option Style
  get_link : A → Option String

/-- Model of `Element::new` (src/lib.rs lines 371-377). -/
def Element.new (text : String) (style : Style) (link_target : Option String) :
    Element :=
  ⟨text, style, link_target⟩

/-- The per-line conversion loop of `html::Renderer::render` (src/html.rs
lines 103-122): keeps the `Str` elements, merges their styles and extracts
the first link target. `merge` stands for the external
`theme::Style::merge`. -/
def convertLine {A : Type} (merge : List Style → Style) (conv : Converter A)
    (line : List (TaggedLineElement A)) : List Element :=
  line.foldl
    (fun elements element =>
      match element with
      | .Str ts =>
        let styles := ts.tag.filterMap conv.get_style
        let link_target := ts.tag.findSome? conv.get_link
        elements ++ [Element.new ts.s (merge styles) link_target]
      | _ => elements)
    []

/-- Model of `html::Renderer::render` (src/html.rs lines 94-128): the external
`html2text` pipeline `render_tree.clone().render(max(5, constraint.x),
decorator).into_lines()` is the function `layout` of the width alone (render
tree and decorator are fixed per instance), and the document stores the
original constraint. -/
def htmlRender {A : Type} (w : String → Nat) (merge : List Style → Style)
    (conv : Converter A) (layout : Nat → List (List (TaggedLineElement A)))
    (constraint : XY) : RenderedDocument :=
  let doc := RenderedDocument.new constraint
  (layout (Nat.max 5 constraint.x)).foldl
    (fun doc line => doc.push_line w (convertLine merge conv line)) doc

/-! Reference functions written from the spec's words, used to state the
claims about scanning and link registration; each is compared against the
behaviour of the source-translated definitions above. -/

/-- Row of the link at index `i` (the y component of its position). -/
abbrev LinkHandler.rowAt (lh : LinkHandler) (i : Nat) : Nat :=
  (lh.links.getD i default).position.y

/-- Spec scan for `move_focus(Up)`: the links with index strictly below the
focus, visited in descending index order, searched for the first whose row is
strictly less than the focused link's row. -/
def upScan (lh : LinkHandler) : Option Nat :=
  (List.range lh.focus).reverse.find?
    (fun i => lh.rowAt i < lh.rowAt lh.focus)

/-- Spec scan for `move_focus(Down)`: the links with index strictly above the
focus, visited in ascending index order, searched for the first whose row is
strictly greater than the focused link's row. -/
def downScan (lh : LinkHandler) : Option Nat :=
  ((List.range lh.links.length).drop (lh.focus + 1)).find?
    (fun i => lh.rowAt lh.focus < lh.rowAt i)

/-- Display width of a whole line: the sum of the display widths of its
elements. -/
def lineWidth (w : String → Nat) (line : List Element) : Nat :=
  (line.map (fun e => w e.text)).sum

/-- Spec-side links of one pushed line: starting at running x position `x` on
row `y`, each element carrying a link target contributes exactly one link at
the running sum of the widths of the prior elements, with the element's width
and target. -/
def lineLinks (w : String → Nat) (y x : Nat) : List Element → List Link
  | [] => []
  | e :: rest =>
    match e.link_target with
    | some target =>
      ⟨⟨x, y⟩, w e.text, target⟩ :: lineLinks w y (x + w e.text) rest
    | none => lineLinks w y (x + w e.text) rest

/-- Spec-side links of a whole document: the lines' links concatenated in row
order, row `y` being the index of the line. -/
def docLinks (w : String → Nat) (y : Nat) : List (List Element) → List Link
  | [] => []
  | l :: rest => lineLinks w y 0 l ++ docLinks w (y + 1) rest

/-- Spec-side rendered elements of one pushed line when the next fresh link
index is `idx`: link-carrying elements receive consecutive indices in order,
the others receive none. -/
def renderLineFrom (idx : Nat) : List Element → List RenderedElement
  | [] => []
  | e :: rest =>
    match e.link_target with
    | some _ => ⟨e.text, e.style, some idx⟩ :: renderLineFrom (idx + 1) rest
    | none => ⟨e.text, e.style, none⟩ :: renderLineFrom idx rest

/-- Whether an element carries a link target. -/
def Element.hasLink (e : Element) : Bool :=
  e.link_target.isSome

/-- Spec-side rendered lines of a whole document, threading the fresh link
index through the lines. -/
def renderLines (idx : Nat) : List (List Element) → List (List RenderedElement)
  | [] => []
  | l :: rest =>
    renderLineFrom idx l :: renderLines (idx + l.countP Element.hasLink) rest

/-- Building a document from scratch: `RenderedDocument::new` followed by one
`push_line` per line. -/
def buildDoc (w : String → Nat) (constraint : XY)
    (liness : List (List Element)) : RenderedDocument :=
  liness.foldl (RenderedDocument.push_line w) (RenderedDocument.new constraint)

/-- The direction that `MarkupView::on_event` maps a key event to, if any. -/
def eventDir : Event → Option Absolute
  | .KeyLeft => some .Left
  | .KeyRight => some .Right
  | .KeyUp => some .Up
  | .KeyDown => some .Down
  | _ => none

/-- The invariant claimed by the spec: whenever the link sequence is
non-empty, the focus index is strictly less than the number of links. -/
def LinkHandler.focusInRange (lh : LinkHandler) : Prop :=
  lh.links ≠ [] → lh.focus < lh.links.length

/-- The strengthened (inductive) invariant: the focus is 0 or in range.  It
implies `focusInRange` and, unlike it, survives `push` on an empty handler. -/
def LinkHandler.focusWf (lh : LinkHandler) : Prop :=
  lh.focus = 0 ∨ lh.focus < lh.links.length

/-- The two-link configuration of the spec's scenario: content on 3 rows,
one link on row 0 (index 0) and one on row 2 (index 1), none on row 1. -/
def scenarioLinks : List Link :=
  [⟨⟨0, 0⟩, 1, "a"⟩, ⟨⟨0, 2⟩, 1, "b"⟩]

/-- A cached two-link document used as a concrete test state: rows 0 and 2
each hold one link, built for constraint width 7. -/
def docA : RenderedDocument :=
  ⟨[], ⟨scenarioLinks, 0⟩, ⟨3, 3⟩, ⟨7, 9⟩⟩

/-- A view holding `docA` in its cache, with no callbacks and no maximum
width. -/
def viewA : MarkupView :=
  ⟨some docA, false, false, none⟩

/-- A rendering strategy returning an empty document for any constraint. -/
def rendEmpty : XY → RenderedDocument :=
  RenderedDocument.new

/-- A concrete layout function for the html renderer tests: one line with one
untagged string, whatever the width. -/
def sampleLayout : Nat → List (List (TaggedLineElement Unit)) :=
  fun _ => [[.Str ⟨"hi", []⟩]]

/-- A converter over the trivial tag type. -/
def sampleConv : Converter Unit :=
  ⟨fun _ => none, fun _ => none⟩

/-- A trivial style merge function. -/
def sampleMerge : List Style → Style :=
  fun _ => {}

/-! Theorems. -/

/-- C3: when a cached document exists and the clamped requested width equals
its stored constraint width, `render` returns the cached size and the whole
view state unchanged, for every rendering strategy (so the strategy is never
consulted) and for every requested height (the cache key is width only). -/
theorem c3_render_cache_hit (view : MarkupView) (doc : RenderedDocument)
    (renderer : XY → RenderedDocument) (constraint : XY)
    (hdoc : view.doc = some doc)
    (hw : (view.clamp constraint).x = doc.constraint.x) :
    view.render renderer constraint = (view, doc.size) := by
  simp [MarkupView.render, hdoc, hw]

/-- C4: when the clamped width differs from the cached document's stored
width, `render` obtains a fresh document from the strategy, seeds it with the
outgoing focus exactly when that focus is strictly less than the fresh link
count (keeping the fresh document's default focus 0 otherwise), replaces the
cache, and returns the fresh document's size. -/
theorem c4_render_cache_miss (view : MarkupView) (doc : RenderedDocument)
    (renderer : XY → RenderedDocument) (constraint : XY)
    (hdoc : view.doc = some doc)
    (hw : (view.clamp constraint).x ≠ doc.constraint.x)
    (h0 : (renderer (view.clamp constraint)).link_handler.focus = 0) :
    view.render renderer constraint =
      ({ view with
          doc := some
            { renderer (view.clamp constraint) with
              link_handler :=
                ⟨(renderer (view.clamp constraint)).link_handler.links,
                  if doc.link_handler.focus
                      < (renderer (view.clamp constraint)).link_handler.links.length
                  then doc.link_handler.focus else 0⟩ } },
        (renderer (view.clamp constraint)).size) := by
  by_cases hlt : doc.link_handler.focus
      < (renderer (view.clamp constraint)).link_handler.links.length
  · simp [MarkupView.render, hdoc, hw, hlt]
  · simp [MarkupView.render, hdoc, hw, hlt, ← h0]

/-- C6: `take_focus` on an empty link sequence returns false changing
nothing; on a non-empty one it returns true, focusing index 0 for the
toward-start directions (absolute Up, Left, None and relative front) and the
last index for the toward-end directions (absolute Down, Right and relative
back). -/
theorem c6_take_focus_spec (lh : LinkHandler) :
    (lh.links = [] → ∀ d, lh.take_focus d = (lh, false))
    ∧ (lh.links ≠ [] →
        (∀ d ∈ [Direction.Abs .Up, Direction.Abs .Left, Direction.Abs .None,
            Direction.Rel .Front],
          lh.take_focus d = (⟨lh.links, 0⟩, true))
        ∧ (∀ d ∈ [Direction.Abs .Down, Direction.Abs .Right,
            Direction.Rel .Back],
          lh.take_focus d = (⟨lh.links, lh.links.length - 1⟩, true)))  := by
  constructor
  · intro h d
    simp [LinkHandler.take_focus, h]
  · intro h
    constructor
    · intro d hd
      fin_cases hd <;> simp [LinkHandler.take_focus, h]
    · intro d hd
      fin_cases hd <;> simp [LinkHandler.take_focus, h]

/-- C8: with a non-empty link sequence and in-range focus, `important_area`
is the rectangle at the focused link's position with size (link width, 1);
with an empty sequence, and for a view without a cached document, it is the
degenerate rectangle at the origin. -/
theorem c8_important_area_spec :
    (∀ lh : LinkHandler, lh.links ≠ [] → lh.focus < lh.links.length →
      lh.important_area =
        Rect.from_size (lh.links.getD lh.focus default).position
          ⟨(lh.links.getD lh.focus default).width, 1⟩)
    ∧ (∀ lh : LinkHandler, lh.links = [] →
      lh.important_area = Rect.fromPoint ⟨0, 0⟩)
    ∧ (∀ view : MarkupView, view.doc = none →
      view.important_area = Rect.fromPoint ⟨0, 0⟩) := by
  refine ⟨fun lh hne _ => ?_, fun lh he => ?_, fun view hv => ?_⟩
  · simp [LinkHandler.important_area, hne]
  · simp [LinkHandler.important_area, he]
  · simp [MarkupView.important_area, hv]

theorem move_focus_horizontal_fail (lh : LinkHandler) (dir : Relative) :
    (lh.move_focus_horizontal dir).2 = false →
    lh.move_focus_horizontal dir = (lh, false) := by
  unfold LinkHandler.move_focus_horizontal
  dsimp only
  split
  · intro _; rfl
  · split
    · split
      · intro h; simp at h
      · intro _; rfl
    · intro _; rfl

theorem move_focus_vertical_fail (lh : LinkHandler) (dir : Relative) :
    (lh.move_focus_vertical dir).2 = false →
    lh.move_focus_vertical dir = (lh, false) := by
  unfold LinkHandler.move_focus_vertical
  dsimp only
  split
  · intro _; rfl
  · split
    · intro h; simp at h
    · intro _; rfl

theorem move_focus_fail (lh : LinkHandler) (d : Absolute)
    (h : (lh.move_focus d).2 = false) :
    lh.move_focus d = (lh, false) := by
  cases d
  · exact move_focus_horizontal_fail lh .Front h
  · exact move_focus_horizontal_fail lh .Back h
  · exact move_focus_vertical_fail lh .Front h
  · exact move_focus_vertical_fail lh .Back h
  · rfl

/-- C2: for every non-empty link sequence with in-range focus,
`move_focus(Left)` succeeds exactly when index focus − 1 exists and that
link's row equals the focused link's row (moving there), and otherwise fails
leaving focus unchanged; `move_focus(Right)` behaves the same with candidate
focus + 1; consequently a successful horizontal move never changes the
focused link's row. -/
theorem c2_move_focus_horizontal_spec (lh : LinkHandler)
    (hne : lh.links ≠ []) (hf : lh.focus < lh.links.length) :
    (lh.move_focus .Left =
      if 0 < lh.focus ∧ lh.rowAt (lh.focus - 1) = lh.rowAt lh.focus then
        (⟨lh.links, lh.focus - 1⟩, true)
      else (lh, false))
    ∧ (lh.move_focus .Right =
      if lh.focus + 1 < lh.links.length
          ∧ lh.rowAt (lh.focus + 1) = lh.rowAt lh.focus then
        (⟨lh.links, lh.focus + 1⟩, true)
      else (lh, false))
    ∧ (∀ d : Absolute, d = .Left ∨ d = .Right →
        (lh.move_focus d).2 = true →
        (lh.move_focus d).1.links = lh.links
        ∧ lh.rowAt (lh.move_focus d).1.focus = lh.rowAt lh.focus) := by
  have hie : lh.links.isEmpty = false := by
    simp [List.isEmpty_iff, hne]
  have hleft : lh.move_focus .Left =
      if 0 < lh.focus ∧ lh.rowAt (lh.focus - 1) = lh.rowAt lh.focus then
        (⟨lh.links, lh.focus - 1⟩, true)
      else (lh, false) := by
    show lh.move_focus_horizontal .Front = _
    unfold LinkHandler.move_focus_horizontal
    rw [hie]
    simp only [Bool.false_eq_true, if_false]
    split
    · rename_i nf h2
      split at h2
      · exact absurd h2 (by simp)
      · rename_i h0
        injection h2 with h2
        subst h2
        split
        · rename_i h3
          have hc : 0 < lh.focus ∧ lh.rowAt (lh.focus - 1) = lh.rowAt lh.focus :=
            ⟨Nat.pos_of_ne_zero h0, h3.symm⟩
          rw [if_pos hc]
        · rename_i h3
          rw [if_neg (fun hc => h3 hc.2.symm)]
    · rename_i h2
      split at h2
      · rename_i h0
        rw [if_neg (fun hc => absurd hc.1 (by omega))]
      · exact absurd h2 (by simp)
  have hright : lh.move_focus .Right =
      if lh.focus + 1 < lh.links.length
          ∧ lh.rowAt (lh.focus + 1) = lh.rowAt lh.focus then
        (⟨lh.links, lh.focus + 1⟩, true)
      else (lh, false) := by
    show lh.move_focus_horizontal .Back = _
    unfold LinkHandler.move_focus_horizontal
    rw [hie]
    simp only [Bool.false_eq_true, if_false]
    split
    · rename_i nf h2
      split at h2
      · rename_i hlt
        injection h2 with h2
        subst h2
        split
        · rename_i h3
          have hc : lh.focus + 1 < lh.links.length
              ∧ lh.rowAt (lh.focus + 1) = lh.rowAt lh.focus :=
            ⟨by omega, h3.symm⟩
          rw [if_pos hc]
        · rename_i h3
          rw [if_neg (fun hc => h3 hc.2.symm)]
      · exact absurd h2 (by simp)
    · rename_i h2
      split at h2
      · exact absurd h2 (by simp)
      · rename_i hge
        rw [if_neg (fun hc => absurd hc.1 (by omega))]
  refine ⟨hleft, hright, ?_⟩
  rintro d (rfl | rfl) htrue
  · rw [hleft] at htrue ⊢
    by_cases hc : 0 < lh.focus ∧ lh.rowAt (lh.focus - 1) = lh.rowAt lh.focus
    · rw [if_pos hc]
      exact ⟨rfl, hc.2⟩
    · rw [if_neg hc] at htrue
      simp at htrue
  · rw [hright] at htrue ⊢
    by_cases hc : lh.focus + 1 < lh.links.length
        ∧ lh.rowAt (lh.focus + 1) = lh.rowAt lh.focus
    · rw [if_pos hc]
      exact ⟨rfl, hc.2⟩
    · rw [if_neg hc] at htrue
      simp at htrue


/-- C9: every event is ignored, with no state change, when no document is
cached or the cached document has no links; a directional event whose
`move_focus` fails leaves the view state unchanged; and on an empty link
sequence every navigation and focus operation is a no-op returning false. -/
theorem c9_event_rejection (view : MarkupView) :
    (view.doc = none → ∀ e, view.on_event e = (view, .Ignored))
    ∧ (∀ doc, view.doc = some doc → doc.link_handler.links = [] →
        ∀ e, view.on_event e = (view, .Ignored))
    ∧ (∀ doc e d, view.doc = some doc → eventDir e = some d →
        (doc.link_handler.move_focus d).2 = false →
        (view.on_event e).1 = view)
    ∧ (∀ lh : LinkHandler, lh.links = [] →
        (∀ d, lh.move_focus d = (lh, false))
        ∧ (∀ dir, lh.take_focus dir = (lh, false))) := by
  refine ⟨?_, ?_, ?_, ?_⟩
  · intro h e
    simp [MarkupView.on_event, h]
  · intro doc hdoc hlinks e
    simp [MarkupView.on_event, hdoc, hlinks]
  · intro doc e d hdoc hdir hfail
    have hmf := move_focus_fail doc.link_handler d hfail
    by_cases hemp : doc.link_handler.links.isEmpty
    · cases e <;> simp [MarkupView.on_event, hdoc, hemp]
    · cases e <;> simp [eventDir] at hdir <;>
        subst hdir <;>
        simp [MarkupView.on_event, hdoc, hemp, hmf] <;>
        rw [← hdoc]
  · intro lh h
    constructor
    · intro d
      cases d <;>
        simp [LinkHandler.move_focus, LinkHandler.move_focus_horizontal,
          LinkHandler.move_focus_vertical, h]
    · intro dir
      simp [LinkHandler.take_focus, h]


theorem lineLinks_length (w : String → Nat) (y : Nat)
    (line : List Element) : ∀ x,
    (lineLinks w y x line).length = line.countP Element.hasLink := by
  induction line with
  | nil => intro x; simp [lineLinks]
  | cons e rest ih =>
    intro x
    cases he : e.link_target with
    | some target =>
      simp [lineLinks, he, ih, List.countP_cons, Element.hasLink]
    | none =>
      simp [lineLinks, he, ih, List.countP_cons, Element.hasLink]

theorem foldl_pushLineStep (w : String → Nat) (y : Nat)
    (line : List Element) : ∀ (x : Nat) (lh : LinkHandler)
    (rl : List RenderedElement),
    line.foldl (pushLineStep w y) (x, lh, rl) =
      (x + lineWidth w line,
       ⟨lh.links ++ lineLinks w y x line, lh.focus⟩,
       rl ++ renderLineFrom lh.links.length line) := by
  induction line with
  | nil =>
    intro x lh rl
    simp [lineWidth, lineLinks, renderLineFrom]
  | cons e rest ih =>
    intro x lh rl
    cases he : e.link_target with
    | some target =>
      simp only [List.foldl_cons, pushLineStep, he, LinkHandler.push]
      rw [ih]
      simp [lineLinks, he, renderLineFrom, lineWidth, List.append_assoc,
        Nat.add_assoc]
    | none =>
      simp only [List.foldl_cons, pushLineStep, he]
      rw [ih]
      simp [lineLinks, he, renderLineFrom, lineWidth, List.append_assoc,
        Nat.add_assoc]

theorem push_line_eq (w : String → Nat) (doc : RenderedDocument)
    (line : List Element) :
    doc.push_line w line =
      ⟨doc.lines ++ [renderLineFrom doc.link_handler.links.length line],
       ⟨doc.link_handler.links ++ lineLinks w doc.lines.length 0 line,
        doc.link_handler.focus⟩,
       ⟨Nat.max doc.size.x (lineWidth w line), doc.size.y + 1⟩,
       doc.constraint⟩ := by
  unfold RenderedDocument.push_line
  dsimp only
  rw [foldl_pushLineStep]
  simp [XY.stack_vertical]

theorem renderLines_length (liness : List (List Element)) : ∀ idx,
    (renderLines idx liness).length = liness.length := by
  induction liness with
  | nil => intro idx; simp [renderLines]
  | cons l rest ih => intro idx; simp [renderLines, ih]

theorem foldl_push_line (w : String → Nat) (liness : List (List Element)) :
    ∀ (doc : RenderedDocument),
    liness.foldl (RenderedDocument.push_line w) doc =
      ⟨doc.lines ++ renderLines doc.link_handler.links.length liness,
       ⟨doc.link_handler.links ++ docLinks w doc.lines.length liness,
        doc.link_handler.focus⟩,
       ⟨(liness.map (lineWidth w)).foldl Nat.max doc.size.x,
        doc.size.y + liness.length⟩,
       doc.constraint⟩ := by
  induction liness with
  | nil =>
    intro doc
    simp [renderLines, docLinks]
  | cons l rest ih =>
    intro doc
    rw [List.foldl_cons, push_line_eq, ih]
    simp [renderLines, docLinks, lineLinks_length, List.append_assoc,
      Nat.add_assoc, Nat.add_comm 1 rest.length]

theorem renderLineFrom_filterMap (line : List Element) : ∀ idx,
    (renderLineFrom idx line).filterMap RenderedElement.link_idx
      = List.range' idx (line.countP Element.hasLink) := by
  induction line with
  | nil => intro idx; simp [renderLineFrom]
  | cons e rest ih =>
    intro idx
    cases he : e.link_target with
    | some target =>
      have hp : Element.hasLink e = true := by
        simp [Element.hasLink, he]
      simp only [renderLineFrom, he, List.filterMap_cons, List.countP_cons,
        hp, if_pos]
      rw [ih]
      simp [RenderedElement.link_idx, List.range'_succ]
    | none =>
      have hp : Element.hasLink e = false := by
        simp [Element.hasLink, he]
      simp only [renderLineFrom, he, List.filterMap_cons, List.countP_cons,
        hp]
      rw [ih]
      simp [RenderedElement.link_idx]

theorem renderLines_filterMap (liness : List (List Element)) : ∀ idx,
    (renderLines idx liness).flatten.filterMap RenderedElement.link_idx
      = List.range' idx (liness.flatten.countP Element.hasLink) := by
  induction liness with
  | nil => intro idx; simp [renderLines]
  | cons l rest ih =>
    intro idx
    simp only [renderLines, List.flatten_cons, List.filterMap_append,
      renderLineFrom_filterMap, ih, List.countP_append]
    have h := List.range'_append idx (l.countP Element.hasLink)
      (rest.flatten.countP Element.hasLink) 1
    rw [Nat.add_comm (rest.flatten.countP Element.hasLink)
      (l.countP Element.hasLink)] at h
    simpa using h

theorem docLinks_length (w : String → Nat) (liness : List (List Element)) :
    ∀ y, (docLinks w y liness).length
      = liness.flatten.countP Element.hasLink := by
  induction liness with
  | nil => intro y; simp [docLinks]
  | cons l rest ih =>
    intro y
    simp [docLinks, lineLinks_length, ih, List.countP_append]

/-- C5: building a document by `push_line` calls registers, per
link-carrying element, exactly one link positioned at the running sum of the
display widths of the prior elements of its row, in row-then-column order
(`docLinks`); the link count equals the count of link-carrying elements; the
link indices stored in the rendered lines are 0, 1, 2, … in insertion order;
and the size is (max of summed row widths, number of lines). -/
theorem c5_push_line_spec (w : String → Nat) (constraint : XY)
    (liness : List (List Element)) :
    (buildDoc w constraint liness).link_handler.links = docLinks w 0 liness
    ∧ (buildDoc w constraint liness).link_handler.links.length
        = liness.flatten.countP Element.hasLink
    ∧ (buildDoc w constraint liness).lines.flatten.filterMap
        RenderedElement.link_idx
        = List.range (buildDoc w constraint liness).link_handler.links.length
    ∧ (buildDoc w constraint liness).size.y = liness.length
    ∧ (buildDoc w constraint liness).lines.length = liness.length
    ∧ (buildDoc w constraint liness).size.x
        = (liness.map (lineWidth w)).foldl Nat.max 0 := by
  unfold buildDoc
  rw [foldl_push_line]
  refine ⟨by simp [RenderedDocument.new], ?_, ?_, by simp [RenderedDocument.new],
    by simp [RenderedDocument.new, renderLines_length], by simp [RenderedDocument.new]⟩
  · simp [RenderedDocument.new, docLinks_length]
  · simp only [RenderedDocument.new, List.nil_append, List.length_nil]
    rw [renderLines_filterMap, docLinks_length, List.range_eq_range']


theorem find?_factor {α : Type} (l : List α) (d : α) (p : Nat × α → Bool)
    (q : Nat → Bool) (hpq : ∀ i, p (i, l.getD i d) = q i) :
    ∀ (s : List (Nat × α)), (∀ x ∈ s, x.2 = l.getD x.1 d) →
    s.find? p = ((s.map Prod.fst).find? q).map (fun i => (i, l.getD i d)) := by
  intro s
  induction s with
  | nil => intro _; simp
  | cons a t ih =>
    intro hs
    have ha : a.2 = l.getD a.1 d := hs a (List.mem_cons_self a t)
    have hpa : p a = q a.1 := by
      conv_lhs => rw [show a = (a.1, a.2) from rfl, ha]
      exact hpq a.1
    cases hq : q a.1 with
    | true =>
      simp only [List.find?_cons, hpa, hq, List.map_cons, Option.map_some]
      exact congrArg some (Prod.ext rfl ha)
    | false =>
      simp only [List.find?_cons, hpa, hq, List.map_cons]
      exact ih (fun x hx => hs x (List.mem_cons_of_mem a hx))

theorem enum_snd_getD {α : Type} [Inhabited α] (l : List α) :
    ∀ x ∈ l.enum, x.2 = l.getD x.1 default := by
  intro x hx
  have h := List.mem_enum_iff_getElem?.mp hx
  rw [List.getD_eq_getElem?_getD, h]
  rfl

theorem enum_rev_drop_fst {α : Type} (l : List α) (f : Nat)
    (hf : f ≤ l.length) :
    (l.enum.reverse.drop (l.length - f)).map Prod.fst
      = (List.range f).reverse := by
  rw [List.map_drop, List.map_reverse, List.enum_map_fst]
  have h := @List.reverse_take ℕ (List.range l.length) f
  rw [List.length_range] at h
  rw [← h, List.take_range, Nat.min_eq_left hf]

theorem enum_drop_fst {α : Type} (l : List α) (k : Nat) :
    (l.enum.drop k).map Prod.fst = (List.range l.length).drop k := by
  rw [List.map_drop, List.enum_map_fst]


/-- C1: for every non-empty link sequence with in-range focus,
`move_focus(Up)` scans the links with index strictly below the focus in
descending index order for the first whose row is strictly less than the
focused link's row, moving there and returning true, and returning false with
focus unchanged if none exists; `move_focus(Down)` symmetrically scans the
links with index strictly above the focus in ascending order for the first
with strictly greater row; and in the two-link scenario (rows 0 and 2, focus
0) Down moves to index 1, a second Down fails, and Up moves back to 0. -/
theorem c1_move_focus_vertical_spec (lh : LinkHandler)
    (hne : lh.links ≠ []) (hf : lh.focus < lh.links.length) :
    (lh.move_focus .Up =
      match upScan lh with
      | some i => (⟨lh.links, i⟩, true)
      | none => (lh, false))
    ∧ (lh.move_focus .Down =
      match downScan lh with
      | some i => (⟨lh.links, i⟩, true)
      | none => (lh, false))
    ∧ (⟨scenarioLinks, 0⟩ : LinkHandler).move_focus .Down
        = (⟨scenarioLinks, 1⟩, true)
    ∧ (⟨scenarioLinks, 1⟩ : LinkHandler).move_focus .Down
        = (⟨scenarioLinks, 1⟩, false)
    ∧ (⟨scenarioLinks, 1⟩ : LinkHandler).move_focus .Up
        = (⟨scenarioLinks, 0⟩, true) := by
  have hie : lh.links.isEmpty = false := by simp [List.isEmpty_iff, hne]
  refine ⟨?_, ?_, by decide, by decide, by decide⟩
  · show lh.move_focus_vertical .Front = _
    unfold LinkHandler.move_focus_vertical
    rw [hie]
    simp only [Bool.false_eq_true, if_false]
    rw [find?_factor lh.links default
        (fun pr => decide (pr.2.position.y
          < (lh.links.getD lh.focus default).position.y))
        (fun i => decide ((lh.links.getD i default).position.y
          < (lh.links.getD lh.focus default).position.y))
        (fun i => rfl)
        (lh.links.enum.reverse.drop (lh.links.length - lh.focus))
        (fun x hx => enum_snd_getD lh.links x
          (List.mem_reverse.mp (List.mem_of_mem_drop hx)))]
    rw [enum_rev_drop_fst lh.links lh.focus (Nat.le_of_lt hf)]
    have hup : upScan lh = ((List.range lh.focus).reverse).find?
        (fun i => decide ((lh.links.getD i default).position.y
          < (lh.links.getD lh.focus default).position.y)) := rfl
    rw [hup]
    cases hfind : ((List.range lh.focus).reverse).find?
        (fun i => decide ((lh.links.getD i default).position.y
          < (lh.links.getD lh.focus default).position.y)) with
    | some i => simp
    | none => simp
  · show lh.move_focus_vertical .Back = _
    unfold LinkHandler.move_focus_vertical
    rw [hie]
    simp only [Bool.false_eq_true, if_false]
    rw [find?_factor lh.links default
        (fun pr => decide ((lh.links.getD lh.focus default).position.y
          < pr.2.position.y))
        (fun i => decide ((lh.links.getD lh.focus default).position.y
          < (lh.links.getD i default).position.y))
        (fun i => rfl)
        (lh.links.enum.drop (lh.focus + 1))
        (fun x hx => enum_snd_getD lh.links x (List.mem_of_mem_drop hx))]
    rw [enum_drop_fst lh.links (lh.focus + 1)]
    have hdown : downScan lh
        = ((List.range lh.links.length).drop (lh.focus + 1)).find?
          (fun i => decide ((lh.links.getD lh.focus default).position.y
            < (lh.links.getD i default).position.y)) := rfl
    rw [hdown]
    cases hfind : ((List.range lh.links.length).drop (lh.focus + 1)).find?
        (fun i => decide ((lh.links.getD lh.focus default).position.y
          < (lh.links.getD i default).position.y)) with
    | some i => simp
    | none => simp


theorem idx_lt_of_mem_enum {α : Type} (l : List α) (x : Nat × α)
    (hx : x ∈ l.enum) : x.1 < l.length := by
  have h := List.mem_enum_iff_getElem?.mp hx
  by_contra hge
  rw [List.getElem?_eq_none (by omega)] at h
  cases h

/-- C7 counterexample: the predicate "non-empty links implies focus in
range" is not preserved by `push` as literally claimed: the handler with no
links and focus 1 satisfies it vacuously, yet pushing one link yields a
one-link handler with focus 1, violating it. -/
theorem c7_counterexample :
    (⟨[], 1⟩ : LinkHandler).focusInRange
    ∧ ¬ ((LinkHandler.push ⟨[], 1⟩ ⟨⟨0, 0⟩, 1, "a"⟩).1.focusInRange) := by
  constructor
  · intro h
    exact absurd rfl h
  · intro hP
    have h := hP (by simp [LinkHandler.push])
    simp [LinkHandler.push] at h

/-- C7 (amended): the strengthened invariant "focus is 0 or in range" holds
for a newly constructed `LinkHandler`, is preserved by `push`, `take_focus`
and `move_focus`, and by `MarkupView::render`'s focus re-seeding (given that
the cached document satisfies it and rendering strategies produce documents
satisfying it, as crate-private construction guarantees), and it implies the
claimed predicate "non-empty links implies focus in range". -/
theorem c7_focus_invariant_amended :
    (({} : LinkHandler).focusWf)
    ∧ (∀ (lh : LinkHandler) (link : Link),
        lh.focusWf → (lh.push link).1.focusWf)
    ∧ (∀ (lh : LinkHandler) (d : Direction),
        lh.focusWf → (lh.take_focus d).1.focusWf)
    ∧ (∀ (lh : LinkHandler) (d : Absolute),
        lh.focusWf → (lh.move_focus d).1.focusWf)
    ∧ (∀ (view : MarkupView) (renderer : XY → RenderedDocument) (c : XY)
        (doc' : RenderedDocument),
        (∀ d, view.doc = some d → d.link_handler.focusWf) →
        (∀ c', (renderer c').link_handler.focusWf) →
        (view.render renderer c).1.doc = some doc' →
        doc'.link_handler.focusWf)
    ∧ (∀ lh : LinkHandler, lh.focusWf → lh.focusInRange) := by
  refine ⟨Or.inl rfl, ?_, ?_, ?_, ?_, ?_⟩
  · intro lh link h
    rcases h with h | h
    · exact Or.inl h
    · refine Or.inr ?_
      show lh.focus < (lh.links ++ [link]).length
      rw [List.length_append]
      omega
  · intro lh d h
    unfold LinkHandler.take_focus
    split
    · exact h
    · rename_i hne
      have hlen : 0 < lh.links.length := by
        cases hl : lh.links with
        | nil => rw [hl] at hne; simp at hne
        | cons a t => simp [hl]
      dsimp only
      rcases d with a | r
      · cases a <;> (simp only [LinkHandler.focusWf]; omega)
      · cases r <;> (simp only [LinkHandler.focusWf]; omega)
  · intro lh d h
    cases d
    case Left =>
      unfold LinkHandler.move_focus LinkHandler.move_focus_horizontal
      dsimp only
      split
      · exact h
      · split
        · rename_i nf h2
          split at h2
          · exact absurd h2 (by simp)
          · rename_i h0
            injection h2 with h2
            subst h2
            split
            · rcases h with h | h
              · exact absurd h h0
              · refine Or.inr ?_
                show lh.focus - 1 < lh.links.length
                omega
            · exact h
        · exact h
    case Right =>
      unfold LinkHandler.move_focus LinkHandler.move_focus_horizontal
      dsimp only
      split
      · exact h
      · split
        · rename_i nf h2
          split at h2
          · rename_i hlt
            injection h2 with h2
            subst h2
            split
            · refine Or.inr ?_
              show lh.focus + 1 < lh.links.length
              omega
            · exact h
          · exact absurd h2 (by simp)
        · exact h
    case Up =>
      unfold LinkHandler.move_focus LinkHandler.move_focus_vertical
      dsimp only
      split
      · exact h
      · split
        · rename_i idx snd hfind
          have hmem := List.mem_of_find?_eq_some hfind
          refine Or.inr ?_
          exact idx_lt_of_mem_enum lh.links (idx, snd)
            (List.mem_reverse.mp (List.mem_of_mem_drop hmem))
        · exact h
    case Down =>
      unfold LinkHandler.move_focus LinkHandler.move_focus_vertical
      dsimp only
      split
      · exact h
      · split
        · rename_i idx snd hfind
          have hmem := List.mem_of_find?_eq_some hfind
          refine Or.inr ?_
          exact idx_lt_of_mem_enum lh.links (idx, snd)
            (List.mem_of_mem_drop hmem)
        · exact h
    case None => exact h
  · intro view renderer c doc' hdocwf hrwf hres
    unfold MarkupView.render at hres
    dsimp only at hres
    cases hvd : view.doc with
    | none =>
      rw [hvd] at hres
      dsimp only at hres
      split at hres
      · rename_i hlt
        injection hres with hres
        subst hres
        exact Or.inl rfl
      · injection hres with hres
        subst hres
        exact hrwf _
    | some doc =>
      rw [hvd] at hres
      dsimp only at hres
      split at hres
      · dsimp only at hres
        rw [hvd] at hres
        injection hres with hres
        subst hres
        exact hdocwf doc hvd
      · split at hres
        · rename_i hlt
          injection hres with hres
          subst hres
          exact Or.inr hlt
        · injection hres with hres
          subst hres
          exact hrwf _
  · intro lh h hne
    rcases h with h | h
    · rw [h]
      cases hl : lh.links with
      | nil => exact absurd hl hne
      | cons a t => simp [hl]
    · exact h


/-- C10: the html renderer lays text out at width max(5, constraint width),
so for any constraint width below 5 the produced lines, links and size equal
those produced at width exactly 5, while each returned document stores its
own original constraint as the cache key. -/
theorem c10_html_width_clamp {A : Type} (w : String → Nat)
    (merge : List Style → Style) (conv : Converter A)
    (layout : Nat → List (List (TaggedLineElement A))) (c : XY)
    (hx : c.x < 5) :
    (htmlRender w merge conv layout c).lines
        = (htmlRender w merge conv layout ⟨5, c.y⟩).lines
    ∧ (htmlRender w merge conv layout c).link_handler
        = (htmlRender w merge conv layout ⟨5, c.y⟩).link_handler
    ∧ (htmlRender w merge conv layout c).size
        = (htmlRender w merge conv layout ⟨5, c.y⟩).size
    ∧ (htmlRender w merge conv layout c).constraint = c
    ∧ (htmlRender w merge conv layout ⟨5, c.y⟩).constraint = ⟨5, c.y⟩ := by
  have hmax : Nat.max 5 c.x = 5 := Nat.max_eq_left (by omega)
  unfold htmlRender
  dsimp only
  rw [hmax]
  rw [show Nat.max 5 (XY.mk 5 c.y).x = 5 from rfl]
  rw [← List.foldl_map (convertLine merge conv)
    (RenderedDocument.push_line w) (layout 5) (RenderedDocument.new c)]
  rw [← List.foldl_map (convertLine merge conv)
    (RenderedDocument.push_line w) (layout 5)
    (RenderedDocument.new ⟨5, c.y⟩)]
  rw [foldl_push_line, foldl_push_line]
  simp [RenderedDocument.new]


/-- Witness for C1 at the concrete scenario handler focused on index 1. -/
theorem c1_witness :
    (⟨scenarioLinks, 1⟩ : LinkHandler).links ≠ []
    ∧ (⟨scenarioLinks, 1⟩ : LinkHandler).focus
        < (⟨scenarioLinks, 1⟩ : LinkHandler).links.length
    ∧ ((⟨scenarioLinks, 1⟩ : LinkHandler).move_focus .Up =
        match upScan ⟨scenarioLinks, 1⟩ with
        | some i => (⟨scenarioLinks, i⟩, true)
        | none => (⟨scenarioLinks, 1⟩, false)) :=
  ⟨by decide, by decide,
    (c1_move_focus_vertical_spec ⟨scenarioLinks, 1⟩ (by decide) (by decide)).1⟩

/-- Witness for C2 at the concrete scenario handler focused on index 1. -/
theorem c2_witness :
    (⟨scenarioLinks, 1⟩ : LinkHandler).links ≠ []
    ∧ (⟨scenarioLinks, 1⟩ : LinkHandler).focus
        < (⟨scenarioLinks, 1⟩ : LinkHandler).links.length
    ∧ ((⟨scenarioLinks, 1⟩ : LinkHandler).move_focus .Left =
        if 0 < (⟨scenarioLinks, 1⟩ : LinkHandler).focus
            ∧ (⟨scenarioLinks, 1⟩ : LinkHandler).rowAt 0
              = (⟨scenarioLinks, 1⟩ : LinkHandler).rowAt 1 then
          (⟨scenarioLinks, 0⟩, true)
        else (⟨scenarioLinks, 1⟩, false)) :=
  ⟨by decide, by decide,
    (c2_move_focus_horizontal_spec ⟨scenarioLinks, 1⟩ (by decide) (by decide)).1⟩

/-- Witness for C3: re-rendering `viewA` at its cached width 7 returns the
cached size and leaves the view unchanged. -/
theorem c3_witness :
    viewA.doc = some docA
    ∧ (viewA.clamp ⟨7, 100⟩).x = docA.constraint.x
    ∧ viewA.render rendEmpty ⟨7, 100⟩ = (viewA, docA.size) :=
  ⟨rfl, by decide, c3_render_cache_hit viewA docA rendEmpty ⟨7, 100⟩ rfl (by decide)⟩

/-- Witness for C4: re-rendering `viewA` at width 5 re-renders and resets
focus, since the empty fresh document has no links. -/
theorem c4_witness :
    viewA.doc = some docA
    ∧ (viewA.clamp ⟨5, 9⟩).x ≠ docA.constraint.x
    ∧ (rendEmpty (viewA.clamp ⟨5, 9⟩)).link_handler.focus = 0
    ∧ viewA.render rendEmpty ⟨5, 9⟩ =
      ({ viewA with
          doc := some
            { rendEmpty (viewA.clamp ⟨5, 9⟩) with
              link_handler :=
                ⟨(rendEmpty (viewA.clamp ⟨5, 9⟩)).link_handler.links,
                  if docA.link_handler.focus
                      < (rendEmpty (viewA.clamp ⟨5, 9⟩)).link_handler.links.length
                  then docA.link_handler.focus else 0⟩ } },
        (rendEmpty (viewA.clamp ⟨5, 9⟩)).size) :=
  ⟨rfl, by decide, rfl,
    c4_render_cache_miss viewA docA rendEmpty ⟨5, 9⟩ rfl (by decide) rfl⟩

/-- Witness for C6 on the scenario links and on the empty handler. -/
theorem c6_witness :
    (⟨scenarioLinks, 1⟩ : LinkHandler).take_focus (.Abs .Up)
        = (⟨scenarioLinks, 0⟩, true)
    ∧ (⟨scenarioLinks, 0⟩ : LinkHandler).take_focus (.Abs .Down)
        = (⟨scenarioLinks, scenarioLinks.length - 1⟩, true)
    ∧ (⟨[], 0⟩ : LinkHandler).take_focus (.Abs .Up) = (⟨[], 0⟩, false) := by
  refine ⟨?_, ?_, ?_⟩
  · exact ((c6_take_focus_spec ⟨scenarioLinks, 1⟩).2 (by decide)).1
      (.Abs .Up) (by decide)
  · exact ((c6_take_focus_spec ⟨scenarioLinks, 0⟩).2 (by decide)).2
      (.Abs .Down) (by decide)
  · exact (c6_take_focus_spec ⟨[], 0⟩).1 rfl (.Abs .Up)

/-- Witness for the amended C7 invariant at concrete handlers. -/
theorem c7_witness :
    ((⟨scenarioLinks, 1⟩ : LinkHandler).push ⟨⟨0, 4⟩, 1, "c"⟩).1.focusWf
    ∧ (({} : LinkHandler).focusWf)
    ∧ ((⟨scenarioLinks, 1⟩ : LinkHandler).take_focus (.Abs .Down)).1.focusWf
    ∧ ((⟨scenarioLinks, 1⟩ : LinkHandler).move_focus .Up).1.focusWf
    ∧ (⟨scenarioLinks, 1⟩ : LinkHandler).focusInRange := by
  have h := c7_focus_invariant_amended
  have hwf : (⟨scenarioLinks, 1⟩ : LinkHandler).focusWf := Or.inr (by decide)
  exact ⟨h.2.1 _ _ hwf, h.1, h.2.2.1 _ _ hwf, h.2.2.2.1 _ _ hwf,
    h.2.2.2.2.2 _ hwf⟩

/-- Witness for C8 at the scenario handler, the empty handler and the empty
view. -/
theorem c8_witness :
    (⟨scenarioLinks, 1⟩ : LinkHandler).important_area
        = Rect.from_size ⟨0, 2⟩ ⟨1, 1⟩
    ∧ (⟨[], 0⟩ : LinkHandler).important_area = Rect.fromPoint ⟨0, 0⟩
    ∧ (⟨none, false, false, none⟩ : MarkupView).important_area
        = Rect.fromPoint ⟨0, 0⟩ := by
  have h := c8_important_area_spec
  exact ⟨h.1 ⟨scenarioLinks, 1⟩ (by decide) (by decide), h.2.1 _ rfl,
    h.2.2 _ rfl⟩

/-- Witness for C9: an uncached view ignores Up; `viewA` (focused on the row-0
link) is unchanged by a failing Up; the empty handler ignores Left. -/
theorem c9_witness :
    ((⟨none, false, false, none⟩ : MarkupView).on_event .KeyUp
        = (⟨none, false, false, none⟩, .Ignored))
    ∧ (viewA.on_event .KeyUp).1 = viewA
    ∧ (⟨[], 0⟩ : LinkHandler).move_focus .Left = (⟨[], 0⟩, false) := by
  refine ⟨?_, ?_, ?_⟩
  · exact (c9_event_rejection ⟨none, false, false, none⟩).1 rfl .KeyUp
  · exact (c9_event_rejection viewA).2.2.1 docA .KeyUp .Up rfl rfl (by decide)
  · exact ((c9_event_rejection viewA).2.2.2 ⟨[], 0⟩ rfl).1 .Left

/-- Witness for C10 at constraint width 3 with a one-line layout. -/
theorem c10_witness :
    (XY.mk 3 7).x < 5
    ∧ ((htmlRender String.length sampleMerge sampleConv sampleLayout ⟨3, 7⟩).lines
        = (htmlRender String.length sampleMerge sampleConv sampleLayout
            ⟨5, 7⟩).lines
      ∧ (htmlRender String.length sampleMerge sampleConv sampleLayout
            ⟨3, 7⟩).link_handler
        = (htmlRender String.length sampleMerge sampleConv sampleLayout
            ⟨5, 7⟩).link_handler
      ∧ (htmlRender String.length sampleMerge sampleConv sampleLayout
            ⟨3, 7⟩).size
        = (htmlRender String.length sampleMerge sampleConv sampleLayout
            ⟨5, 7⟩).size
      ∧ (htmlRender String.length sampleMerge sampleConv sampleLayout
            ⟨3, 7⟩).constraint = ⟨3, 7⟩
      ∧ (htmlRender String.length sampleMerge sampleConv sampleLayout
            ⟨5, 7⟩).constraint = ⟨5, 7⟩) :=
  ⟨by decide,
    c10_html_width_clamp String.length sampleMerge sampleConv sampleLayout
      ⟨3, 7⟩ (by decide)⟩

end CursiveMarkup
